import Mathlib

set_option linter.unusedSectionVars false

/-!
Verification of the chaos-game simulation engine.

This file gives a shallow embedding of the worker engine in
`src/worker_v3.js` (the variant all verified claims cite): geometry setup,
the restriction table, the restricted random walk, the density accumulator,
the log/gamma color normalizer, the stability detector and the
`updateSetting` message handler.  JavaScript numbers are modelled by an
arbitrary linear ordered field `K` (instantiated with `ℚ` in concrete
witnesses and with `ℝ` where the logarithm matters); the transcendental
functions `Math.cos`, `Math.sin`, `Math.sqrt`, `Math.log` and `**` are
passed in as function parameters so that the discrete parts of the engine
stay executable.  `Float32Array` / `Uint32Array` buffers are modelled by
`List ℕ`; a write through an out-of-range index is dropped, and a read
through one yields JavaScript `undefined`, which compares unequal to `0`
and propagates `NaN` through arithmetic — both are reflected where they
matter (see `plotPoint`).
-/

/-- Selection rule, `settings.restriction` in the source.  In JavaScript it
is a string; every value other than the five recognized ones (including
`null` and the literal string for no restriction) falls through to the
unrestricted branch of `buildRestrictions`, so they are all folded into the
constructor `Restriction.none`. -/
inductive Restriction
  | none
  | noRepeat
  | noDoubleRepeat
  | noReturn
  | noNeighbor
  | noNeighborAfterRepeat
  deriving DecidableEq, Repr

/-- Color record `{r, g, b}` as produced by `colorToRGB` (worker_v3.js:43). -/
structure RGB where
  r : ℕ
  g : ℕ
  b : ℕ
  deriving DecidableEq, Repr

/-- Value of a hexadecimal digit, as JavaScript `parseInt(·, 16)` reads
characters. -/
def hexDigitVal (c : Char) : Option ℕ :=
  if c.isDigit then some (c.toNat - 48)
  else if 97 ≤ c.toNat ∧ c.toNat ≤ 102 then some (c.toNat - 87)
  else if 65 ≤ c.toNat ∧ c.toNat ≤ 70 then some (c.toNat - 55)
  else Option.none

/-- JavaScript `parseInt(s, 16)`: read the longest prefix of hexadecimal
digits; `NaN` (here `Option.none`) when there is none.  The only inputs the
source feeds it are slices of a color string after `#`, so the
whitespace/sign handling of full `parseInt` is irrelevant. -/
def parseIntHex (l : List Char) : Option ℕ :=
  let ds := l.takeWhile (fun c => (hexDigitVal c).isSome)
  if ds.isEmpty then Option.none
  else some (ds.foldl (fun a c => 16 * a + (hexDigitVal c).getD 0) 0)

/-- Decimal value of a digit run, as JavaScript `Number` reads the matches
of the digit regular expression in `colorToRGB`. -/
def decVal (l : List Char) : ℕ :=
  l.foldl (fun a c => 10 * a + (c.toNat - 48)) 0

/-- Helper for `digitRuns`: `acc` holds the digits of the run in progress,
in reverse. -/
def digitRunsAux : List Char → List Char → List (List Char)
  | [], acc => if acc.isEmpty then [] else [acc.reverse]
  | c :: cs, acc =>
    if c.isDigit then digitRunsAux cs (c :: acc)
    else if acc.isEmpty then digitRunsAux cs []
    else acc.reverse :: digitRunsAux cs []

/-- Maximal runs of decimal digits of a string, in order: the matches of
the global digit regular expression in `colorToRGB` (worker_v3.js:52). -/
def digitRuns (l : List Char) : List (List Char) :=
  digitRunsAux l []

/-- Translation of the 3/4-digit shorthand expansion in `colorToRGB`
(worker_v3.js:46-48): `hex.split('').map(ch => ch + ch).join('')`. -/
def expandShort (hex : List Char) : List Char :=
  if hex.length = 3 ∨ hex.length = 4 then (hex.map (fun c => [c, c])).flatten
  else hex

/-- Translation of `colorToRGB` (worker_v3.js:43-58).  Strings are modelled
as `List Char`.  When `parseInt` yields `NaN`, the source's bitwise shifts
and masks coerce it to `0` in every channel, hence the `⟨0, 0, 0⟩` in that
branch.  When fewer than three digit runs match, the source leaves the
missing channels `undefined`; no claim exercises that case and the model
uses `0` for them. -/
def colorToRGB (color : List Char) : RGB :=
  match color with
  | '#' :: rest =>
    let hex := expandShort rest
    match parseIntHex (hex.take 6) with
    | some num => ⟨(num >>> 16) &&& 255, (num >>> 8) &&& 255, num &&& 255⟩
    | Option.none => ⟨0, 0, 0⟩
  | _ =>
    let runs := (digitRuns color).map decVal
    if runs.isEmpty then ⟨0, 0, 0⟩
    else ⟨runs.getD 0 0, runs.getD 1 0, runs.getD 2 0⟩

/-- Packed 32-bit pixel `(0xFF << 24) | (b << 16) | (g << 8) | r` as stored
through the `Uint32Array` (worker_v3.js:314): the signed result of the
JavaScript bitwise-or, reinterpreted as the unsigned 32-bit value the
buffer holds, which for channels below 256 is this disjoint-bit sum. -/
def bg32 (c : RGB) : ℕ :=
  (255 <<< 24) ||| (c.b <<< 16) ||| (c.g <<< 8) ||| c.r

/-- Burn-in step count, `DEFAULT_BURN_IN_COUNT` (worker_v3.js:36). -/
def DEFAULT_BURN_IN_COUNT : ℕ := 300

/-- Consecutive quiet intervals needed for convergence, `STABILITY_WINDOW`
(worker_v3.js:39). -/
def STABILITY_WINDOW : ℕ := 10

/-- The configuration record handed to the worker (`settings`).  Numeric
fields live in the field `K` standing in for JavaScript numbers, except the
two used only as sizes and loop bounds, which are natural numbers.
`stabilityNewPixelsThreshold` is optional because the host may never set it
(`undefined` in JavaScript), which matters to `checkStability`. -/
structure Settings (K : Type) where
  canvasSize : ℕ
  sides : ℕ
  jumpDistance : K
  padding : K
  midpointVertex : Bool
  centerVertex : Bool
  symmetrical : Bool
  autoStop : Bool
  liveRendering : Bool
  solidBg : Bool
  drawCircle : Bool
  drawPolygon : Bool
  restriction : Restriction
  gammaExponent : K
  stabilityNewPixelsThreshold : Option K
  fgColor : List Char
  bgColor : List Char
  deriving DecidableEq

/-- The worker's global `state` object (worker_v3.js:2-28).  The wall-clock
fields (`runTime`, `animationFrameId`, `lastUpdateTime`) drive only the
external scheduler and are not modelled; `hasCtx` models whether the
`initCanvas` message has arrived, i.e. whether the module global `ctx` is
non-null (the guard at the top of `erase`). -/
structure State (K : Type) where
  settings : Settings K
  vertices : List (K × K)
  mainVertices : List (K × K)
  currentPoint : K × K
  center : K × K
  radius : K
  imageMatrix : List ℕ
  allowedMoves : List (List ℕ)
  pixelData : List ℕ
  maxValue : ℕ
  prevIndex : List ℕ
  bgColor : RGB
  fgColor : RGB
  cosAngles : List K
  sinAngles : List K
  iterations : ℕ
  stabilityCounter : ℕ
  newPixelsSinceLastCheck : ℕ
  newPixelsEma : K
  filledPixels : ℕ
  isRunning : Bool
  hasCtx : Bool
  deriving DecidableEq

section Engine

variable {K : Type} [LinearOrderedField K]

/-- Translation of `updateColors` (worker_v3.js:125-128). -/
def updateColors (st : State K) : State K :=
  { st with fgColor := colorToRGB st.settings.fgColor,
            bgColor := colorToRGB st.settings.bgColor }

/-- JavaScript `list.at(-1)`: the last element.  The engine only reads it
under guards that guarantee the list is long enough, so the default `0` is
never observed. -/
def atNeg1 (l : List ℕ) : ℕ := l.getD (l.length - 1) 0

/-- JavaScript `list.at(-2)`: the second-to-last element, same proviso as
`atNeg1`. -/
def atNeg2 (l : List ℕ) : ℕ := l.getD (l.length - 2) 0

/-- The local `sides` of `buildRestrictions` (worker_v3.js:174): the ring
size, doubled when midpoints are interleaved. -/
def ringSides (s : Settings K) : ℕ :=
  if s.midpointVertex then s.sides * 2 else s.sides

/-- Body of the loop of `buildRestrictions` (worker_v3.js:177-189): the
legal next indices from vertex `i` when there are `len` vertices.  In the
neighbor case the source computes `(i - 1 + sides) % sides`, which for the
nonnegative `i` at hand equals `(i + sides - 1) % sides`. -/
def allowedFor (s : Settings K) (len i : ℕ) : List ℕ :=
  if s.restriction = .noRepeat ∨ s.restriction = .noDoubleRepeat ∨
      s.restriction = .noReturn then
    (List.range len).filter (fun j => j ≠ i)
  else if s.restriction = .noNeighbor ∨ s.restriction = .noNeighborAfterRepeat then
    let sides := ringSides s
    let left := (i + sides - 1) % sides
    let right := (i + 1) % sides
    (List.range len).filter (fun j => sides ≤ i ∨ (j ≠ left ∧ j ≠ right))
  else
    List.range len

/-- The whole `allowedMoves` table `buildRestrictions` constructs for a
vertex list of length `len`. -/
def allowedTable (s : Settings K) (len : ℕ) : List (List ℕ) :=
  (List.range len).map (allowedFor s len)

/-- Translation of `buildRestrictions` (worker_v3.js:172-191). -/
def buildRestrictions (st : State K) : State K :=
  { st with allowedMoves := allowedTable st.settings st.vertices.length }

/-- Index selection inside `updateCurrentPoint` (worker_v3.js:217-228).
One call to `Math.random()` is abstracted as `choice : ℕ → ℕ`, mapping the
bound `n` it gets multiplied by to `Math.floor(Math.random() * n)`; theorems
assume `0 < n → choice n < n`, which every real draw satisfies. -/
def chooseIndex (choice : ℕ → ℕ) (st : State K) : ℕ :=
  if st.prevIndex = [] ∨
      (st.settings.restriction = .noReturn ∧ st.prevIndex.length < 2) ∨
      ((st.settings.restriction = .noNeighborAfterRepeat ∨
          st.settings.restriction = .noDoubleRepeat) ∧
        (st.prevIndex.length < 2 ∨ atNeg1 st.prevIndex ≠ atNeg2 st.prevIndex)) then
    choice st.vertices.length
  else
    let lb := if st.settings.restriction = .noReturn then atNeg2 st.prevIndex
              else atNeg1 st.prevIndex
    let allowed := st.allowedMoves.getD lb []
    allowed.getD (choice allowed.length) 0

/-- Translation of `updateCurrentPoint` (worker_v3.js:213-236): select an
index, append it to the bounded history (capacity 10, oldest evicted), and
move the point toward the chosen vertex by the jump fraction. -/
def updateCurrentPoint (choice : ℕ → ℕ) (st : State K) : State K :=
  let currentIndex := chooseIndex choice st
  let hist := st.prevIndex ++ [currentIndex]
  let hist := if 10 < hist.length then hist.drop 1 else hist
  let v := st.vertices.getD currentIndex (0, 0)
  { st with
    prevIndex := hist,
    currentPoint :=
      (st.currentPoint.1 + (v.1 - st.currentPoint.1) * st.settings.jumpDistance,
       st.currentPoint.2 + (v.2 - st.currentPoint.2) * st.settings.jumpDistance) }

/-- Translation of `burnIn` (worker_v3.js:207-211): `DEFAULT_BURN_IN_COUNT`
walk steps, step `i` consuming the random draw `choices i`. -/
def burnIn (choices : ℕ → ℕ → ℕ) (st : State K) : State K :=
  (List.range DEFAULT_BURN_IN_COUNT).foldl
    (fun s i => updateCurrentPoint (choices i) s) st

/-- Translation of `getRandomPointInShape` (worker_v3.js:193-205).  The
three `Math.random()` draws appear as `triPick` (the one multiplied by the
side count and floored) and the unit-interval values `r1`, `r2`;
`Math.sqrt` is the parameter `sqrtK`. -/
def getRandomPointInShape (sqrtK : K → K) (triPick : ℕ → ℕ) (r1 r2 : K)
    (st : State K) : K × K :=
  let n := st.mainVertices.length
  let t := triPick n
  let v1 := st.center
  let v2 := st.mainVertices.getD t (0, 0)
  let v3 := st.mainVertices.getD ((t + 1) % n) (0, 0)
  ((1 - sqrtK r1) * v1.1 + sqrtK r1 * (1 - r2) * v2.1 + sqrtK r1 * r2 * v3.1,
   (1 - sqrtK r1) * v1.2 + sqrtK r1 * (1 - r2) * v2.2 + sqrtK r1 * r2 * v3.2)

/-- The main vertices laid out by the first loop of `preDraw`
(worker_v3.js:135-148): vertex `i` sits at angle `-π/2 + i·(2π/N)`, the
value the source's incrementally updated `angle` has on iteration `i`. -/
def mainVertexList (cosK sinK : K → K) (piK : K) (s : Settings K)
    (radius : K) (center : K × K) : List (K × K) :=
  (List.range s.sides).map (fun (i : ℕ) =>
    let angle := -(piK / 2) + (2 * piK / (s.sides : K)) * (i : ℕ)
    (cosK angle * radius + center.1, sinK angle * radius + center.2))

/-- Rotation cosine table from the same loop: `cos(2π·i/N)`. -/
def cosAngleList (cosK : K → K) (piK : K) (s : Settings K) : List K :=
  (List.range s.sides).map (fun (i : ℕ) => cosK ((2 * piK / (s.sides : K)) * (i : ℕ)))

/-- Rotation sine table from the same loop: `sin(2π·i/N)`. -/
def sinAngleList (sinK : K → K) (piK : K) (s : Settings K) : List K :=
  (List.range s.sides).map (fun (i : ℕ) => sinK ((2 * piK / (s.sides : K)) * (i : ℕ)))

/-- Edge midpoints (worker_v3.js:153-160): midpoint `i` joins vertex `i`
and vertex `(i+1) % sides`. -/
def midpointList (s : Settings K) (verts : List (K × K)) : List (K × K) :=
  (List.range verts.length).map (fun i =>
    let i2 := (i + 1) % s.sides
    (((verts.getD i (0, 0)).1 + (verts.getD i2 (0, 0)).1) / 2,
     ((verts.getD i (0, 0)).2 + (verts.getD i2 (0, 0)).2) / 2))

/-- The splice loop of `preDraw` (worker_v3.js:161-163): insert midpoint
`i` at position `2·i + 1`. -/
def insertMidpoints (verts mids : List (K × K)) : List (K × K) :=
  (List.range mids.length).foldl
    (fun vs i => vs.insertIdx (2 * i + 1) (mids.getD i (0, 0))) verts

/-- Translation of `preDraw` (worker_v3.js:130-170): build the vertex ring,
the rotation tables, the restriction table, sample a fresh starting point
inside the polygon and run the burn-in. -/
def preDraw (cosK sinK sqrtK : K → K) (piK : K) (choices : ℕ → ℕ → ℕ)
    (triPick : ℕ → ℕ) (r1 r2 : K) (st : State K) : State K :=
  let s := st.settings
  let verts := mainVertexList cosK sinK piK s st.radius st.center
  let st := { st with vertices := verts, mainVertices := verts,
                      cosAngles := cosAngleList cosK piK s,
                      sinAngles := sinAngleList sinK piK s }
  let st := if s.midpointVertex then
      { st with vertices := insertMidpoints st.vertices (midpointList s st.vertices) }
    else st
  let st := if s.centerVertex then { st with vertices := st.vertices ++ [st.center] }
    else st
  let st := buildRestrictions st
  let st := { st with currentPoint := getRandomPointInShape sqrtK triPick r1 r2 st }
  burnIn choices st

/-- Translation of `erase` (worker_v3.js:300-317): without a canvas context
it returns immediately; otherwise it zeroes the density matrix, resets the
walk and stability state, and refills the pixel buffer with the background
(opaque background color in solid mode, fully transparent otherwise). -/
def erase (st : State K) : State K :=
  if st.hasCtx = false then st
  else
    { st with
      imageMatrix := List.replicate st.imageMatrix.length 0,
      maxValue := 1,
      prevIndex := [],
      iterations := 0,
      stabilityCounter := 0,
      newPixelsSinceLastCheck := 0,
      newPixelsEma := 0,
      filledPixels := 0,
      pixelData :=
        if st.settings.solidBg = false then List.replicate st.pixelData.length 0
        else List.replicate st.pixelData.length (bg32 st.bgColor) }

/-- Translation of `setup` (worker_v3.js:103-123): install the new settings
unconditionally, recompute center and radius, recreate the buffers at the
new size, refresh the colors, rebuild the geometry (including burn-in) and
erase.  The `OffscreenCanvas` resize is an external effect with no modelled
state. -/
def setup (cosK sinK sqrtK : K → K) (piK : K) (choices : ℕ → ℕ → ℕ)
    (triPick : ℕ → ℕ) (r1 r2 : K) (ns : Settings K) (st : State K) : State K :=
  let st := { st with settings := ns,
                      center := ((ns.canvasSize : K) / 2, (ns.canvasSize : K) / 2),
                      radius := (ns.canvasSize : K) / 2 - ns.padding }
  let size := ns.canvasSize ^ 2
  let st := { st with imageMatrix := List.replicate size 0,
                      pixelData := List.replicate size 0 }
  let st := updateColors st
  let st := preDraw cosK sinK sqrtK piK choices triPick r1 r2 st
  erase st

end Engine

section Accumulator

variable {K : Type} [LinearOrderedField K]

/-- Body of the plotting loop of `updateMatrix` (worker_v3.js:258-274) for
one already-rounded point `(x, y)`.  The flattened row-major index is
`y * canvasSize + x`.  The backing store is a `Float32Array`: a write
through an index outside `[0, length)` is silently dropped, and the read
`imageMatrix[index]` there yields `undefined`, so neither the new-pixel
counter (`undefined === 0` is false) nor the maximum (`NaN > maxValue` is
false) changes — the whole iteration is a no-op, the `else` branch here. -/
def plotPoint (st : State K) (x y : ℤ) : State K :=
  let index : ℤ := y * (st.settings.canvasSize : ℤ) + x
  if 0 ≤ index ∧ index < (st.imageMatrix.length : ℤ) then
    let i := index.toNat
    let st1 :=
      if st.imageMatrix.getD i 0 = 0 then
        { st with newPixelsSinceLastCheck := st.newPixelsSinceLastCheck + 1 }
      else st
    let v := st.imageMatrix.getD i 0 + 1
    { st1 with imageMatrix := st1.imageMatrix.set i v,
               maxValue := if st1.maxValue < v then v else st1.maxValue }
  else st

/-- The local `rotatePoint` of `updateMatrix` (worker_v3.js:243-246). -/
def rotatePoint (center : K × K) (x y cosv sinv : K) : K × K :=
  ((x - center.1) * cosv - (y - center.2) * sinv + center.1,
   (x - center.1) * sinv + (y - center.2) * cosv + center.2)

/-- Translation of `updateMatrix` (worker_v3.js:238-275): one walk step,
then the symmetry expansion (for each of the `sides` rotations, the rotated
point and the rotated mirror image across the vertical axis through the
center), then one plot per expanded point with coordinates rounded to the
nearest integer (`Math.round`, which is `round` on an exact field). -/
def updateMatrix [FloorRing K] (choice : ℕ → ℕ) (st : State K) : State K :=
  let st := updateCurrentPoint choice st
  let pts : List (K × K) :=
    if st.settings.symmetrical then
      ((List.range st.settings.sides).map (fun i =>
        [rotatePoint st.center st.currentPoint.1 st.currentPoint.2
            (st.cosAngles.getD i 0) (st.sinAngles.getD i 0),
         rotatePoint st.center (2 * st.center.1 - st.currentPoint.1)
            st.currentPoint.2
            (st.cosAngles.getD i 0) (st.sinAngles.getD i 0)])).flatten
    else [st.currentPoint]
  pts.foldl (fun s p => plotPoint s (round p.1) (round p.2)) st

/-- A batch of `updateMatrix` steps, as the scheduler's inner loop issues
them (worker_v3.js:393-395); `choices` lists one random draw per step. -/
def runSteps [FloorRing K] (choices : List (ℕ → ℕ)) (st : State K) : State K :=
  choices.foldl (fun s c => updateMatrix c s) st

end Accumulator

section Normalizer

variable {K : Type} [LinearOrderedField K]

/-- Translation of `normalizeValue` (worker_v3.js:93-97), with `Math.log`
and the gamma power `**` as the parameters `logK` and `powK`:
`0` when the precomputed `logMax` is not positive, otherwise
`(log(1 + raw) / logMax) ** gamma`. -/
def normalizeValue (logK : K → K) (powK : K → K → K) (gamma rawValue logMax : K) : K :=
  if logMax ≤ 0 then 0 else powK (logK (1 + rawValue) / logMax) gamma

/-- Translation of `lerp` (worker_v3.js:60-62): `Math.round(a + t*(b-a))`. -/
def lerp [FloorRing K] (a b t : K) : ℤ :=
  round (a + t * (b - a))

/-- Translation of `calculatePixelValue` (worker_v3.js:70-84).  For the
normalized values in `[0, 1]` the source feeds it, every channel lands in
`[0, 255]`, so the JavaScript bitwise composition equals this disjoint-bit
sum of natural numbers. -/
def calculatePixelValue [FloorRing K] (st : State K) (val : K) : ℕ :=
  if st.settings.solidBg = false then
    let alpha := (lerp 0 255 val).toNat
    (alpha <<< 24) ||| (st.fgColor.b <<< 16) ||| (st.fgColor.g <<< 8) ||| st.fgColor.r
  else
    let r := (lerp (st.bgColor.r : K) (st.fgColor.r : K) val).toNat
    let g := (lerp (st.bgColor.g : K) (st.fgColor.g : K) val).toNat
    let b := (lerp (st.bgColor.b : K) (st.fgColor.b : K) val).toNat
    (255 <<< 24) ||| (b <<< 16) ||| (g <<< 8) ||| r

/-- Translation of `updatePixelDataFromMatrix` (worker_v3.js:277-287): walk
the density matrix and overwrite the pixel of every cell with a nonzero hit
count; a cell that is zero is skipped and its pixel untouched. -/
def updatePixelDataFromMatrix [FloorRing K] (logK : K → K) (powK : K → K → K)
    (st : State K) : State K :=
  let logMax := logK (1 + (st.maxValue : K))
  { st with
    pixelData :=
      (List.range st.imageMatrix.length).foldl (fun pd i =>
        if 0 < st.imageMatrix.getD i 0 then
          pd.set i (calculatePixelValue st
            (normalizeValue logK powK st.settings.gammaExponent
              (st.imageMatrix.getD i 0 : K) logMax))
        else pd) st.pixelData }

/-- Translation of `prepareCanvasForOutput` (worker_v3.js:354-357); the
subsequent `renderCanvas` only copies the pixel buffer to the canvas, an
external effect with no modelled state. -/
def prepareCanvasForOutput [FloorRing K] (logK : K → K) (powK : K → K → K)
    (st : State K) : State K :=
  updatePixelDataFromMatrix logK powK st

end Normalizer

section Stability

variable {K : Type} [LinearOrderedField K]

/-- JavaScript `x || d` for the numeric setting `x`: the default `d` when
the setting is absent (`undefined`) or zero (falsy), else the value. -/
def jsOr (x : Option K) (d : K) : K :=
  match x with
  | some v => if v = 0 then d else v
  | Option.none => d

/-- The smoothing constant `EMA_ALPHA` (worker_v3.js:40). -/
def EMA_ALPHA (K : Type) [LinearOrderedField K] : K := 1 / 5

/-- Translation of `checkStability` (worker_v3.js:366-384): reset the
iteration counter, fold the interval's new-pixel count into the moving
average, accumulate the filled-pixel total and clear the interval counter;
then compare the average with the configured threshold defaulted through
`||` to `1.0`, bumping or resetting the quiet counter, and report
convergence when the quiet counter reaches the window.  The posted
`newFillRatio` is a diagnostic sent to the host and touches no retained
state, so it is not modelled. -/
def checkStability (st : State K) : Bool × State K :=
  let st := { st with iterations := 0 }
  let ema := EMA_ALPHA K * (st.newPixelsSinceLastCheck : K) +
    (1 - EMA_ALPHA K) * st.newPixelsEma
  let st := { st with newPixelsEma := ema,
                      filledPixels := st.filledPixels + st.newPixelsSinceLastCheck,
                      newPixelsSinceLastCheck := 0 }
  if ema < jsOr st.settings.stabilityNewPixelsThreshold 1 then
    let st := { st with stabilityCounter := st.stabilityCounter + 1 }
    (decide (STABILITY_WINDOW ≤ st.stabilityCounter), st)
  else
    (false, { st with stabilityCounter := 0 })

end Stability

section Handler

variable {K : Type} [LinearOrderedField K]

/-- The setting keys the host can send with an `updateSetting` message
(worker_v3.js:462; the key names the host UI uses). -/
inductive SettingKey
  | canvasSize
  | sides
  | jumpDistance
  | padding
  | midpointVertex
  | centerVertex
  | symmetrical
  | autoStop
  | liveRendering
  | solidBg
  | drawCircle
  | drawPolygon
  | restriction
  | gammaExponent
  | stabilityNewPixelsThreshold
  | fgColor
  | bgColor
  deriving DecidableEq, Repr

/-- A value carried by an `updateSetting` message. -/
inductive SettingValue (K : Type)
  | nat (n : ℕ)
  | num (x : K)
  | flag (b : Bool)
  | color (s : List Char)
  | restr (r : Restriction)
  | threshold (t : Option K)
  deriving DecidableEq

/-- The dynamic assignment `state.settings[key] = value` (worker_v3.js:463).
JavaScript would store a value of any shape; the model applies the
assignment when the value fits the field and is the identity otherwise
(no claim sends a mistyped value). -/
def setKey (s : Settings K) : SettingKey → SettingValue K → Settings K
  | .canvasSize, .nat n => { s with canvasSize := n }
  | .sides, .nat n => { s with sides := n }
  | .jumpDistance, .num x => { s with jumpDistance := x }
  | .padding, .num x => { s with padding := x }
  | .midpointVertex, .flag b => { s with midpointVertex := b }
  | .centerVertex, .flag b => { s with centerVertex := b }
  | .symmetrical, .flag b => { s with symmetrical := b }
  | .autoStop, .flag b => { s with autoStop := b }
  | .liveRendering, .flag b => { s with liveRendering := b }
  | .solidBg, .flag b => { s with solidBg := b }
  | .drawCircle, .flag b => { s with drawCircle := b }
  | .drawPolygon, .flag b => { s with drawPolygon := b }
  | .restriction, .restr r => { s with restriction := r }
  | .gammaExponent, .num x => { s with gammaExponent := x }
  | .stabilityNewPixelsThreshold, .threshold t => { s with stabilityNewPixelsThreshold := t }
  | .fgColor, .color c => { s with fgColor := c }
  | .bgColor, .color c => { s with bgColor := c }
  | _, _ => s

/-- Translation of the `updateSetting` case of the worker's message handler
(worker_v3.js:462-482): store the value into `settings`; for the color keys
refresh the parsed colors and refill the whole pixel buffer with the
background; for `gammaExponent` and the outline toggles, and for turning
`liveRendering` on, only mark a render; finally, when a render is due and
the worker is idle or live-rendering, `renderFrame` runs, whose modelled
effect is `updatePixelDataFromMatrix` (the bitmap transfer is external).
No key triggers `preDraw`, `buildRestrictions` or `setup` here. -/
def handleUpdateSetting [FloorRing K] (logK : K → K) (powK : K → K → K)
    (k : SettingKey) (v : SettingValue K) (st : State K) : State K :=
  let st := { st with settings := setKey st.settings k v }
  let st :=
    if k = .bgColor ∨ k = .fgColor ∨ k = .solidBg then
      let st := updateColors st
      if st.settings.solidBg then
        { st with pixelData := List.replicate st.pixelData.length (bg32 st.bgColor) }
      else
        { st with pixelData := List.replicate st.pixelData.length 0 }
    else st
  let needsRender :=
    (k = .bgColor ∨ k = .fgColor ∨ k = .solidBg) ∨
    (k = .gammaExponent ∨ k = .drawCircle ∨ k = .drawPolygon) ∨
    (k = .liveRendering ∧ v = .flag true)
  if needsRender ∧ (st.isRunning = false ∨ st.settings.liveRendering = true) then
    updatePixelDataFromMatrix logK powK st
  else st

end Handler

section BoundsPolicy

/-- Whether a rounded point lies on the canvas: both coordinates in
`[0, canvasSize)`.  This is the test in the commented-out bounds check of
`updateMatrix` (worker_v3.js:262). -/
def inCanvas (S : ℕ) (x y : ℤ) : Prop :=
  0 ≤ x ∧ x < (S : ℤ) ∧ 0 ≤ y ∧ y < (S : ℤ)

instance (S : ℕ) (x y : ℤ) : Decidable (inCanvas S x y) := by
  unfold inCanvas; infer_instance

/-- The density-matrix cell `updateMatrix` actually increments for a
rounded point `(x, y)` on a matrix of `len` cells: the flattened index
`y * S + x` when it lies inside the backing array, nothing otherwise
(the `Float32Array` drops the write).  This is the index arithmetic of
`plotPoint`, shared with it so the two cannot drift apart. -/
def writeIndex (S len : ℕ) (x y : ℤ) : Option ℕ :=
  let index : ℤ := y * (S : ℤ) + x
  if 0 ≤ index ∧ index < (len : ℤ) then some index.toNat else Option.none

/-- The cell a clamp policy would write: coordinates clamped into
`[0, S-1]` before flattening (one of the three policies the specification
offers for out-of-canvas points). -/
def clampPolicy (S : ℕ) (x y : ℤ) : Option ℕ :=
  let cx := min (max x 0) ((S : ℤ) - 1)
  let cy := min (max y 0) ((S : ℤ) - 1)
  some (cy * (S : ℤ) + cx).toNat

/-- The cell a discard policy would write: none, off the canvas. -/
def discardPolicy (S : ℕ) (x y : ℤ) : Option ℕ :=
  if inCanvas S x y then some (y * (S : ℤ) + x).toNat else Option.none

/-- The cell a wrap policy would write: coordinates reduced modulo `S`
before flattening. -/
def wrapPolicy (S : ℕ) (x y : ℤ) : Option ℕ :=
  some ((y % (S : ℤ)) * (S : ℤ) + x % (S : ℤ)).toNat

/-- The claim's consistency requirement, stated over the specification's
three candidate policies: one of clamp, discard or wrap accounts for the
accumulator's behavior on every point that rounds off the canvas. -/
def consistentOOBPolicy (S len : ℕ) : Prop :=
  ∃ p ∈ [clampPolicy, discardPolicy, wrapPolicy],
    ∀ x y : ℤ, ¬ inCanvas S x y → writeIndex S len x y = p S x y

end BoundsPolicy

section SpecSide

variable {K : Type} [LinearOrderedField K]

/-- Number of vertices `preDraw` ends with: `sides` main vertices, doubled
by midpoint interleaving, plus one for the centroid. -/
def numVertices (s : Settings K) : ℕ :=
  (if s.midpointVertex then 2 * s.sides else s.sides) +
    (if s.centerVertex then 1 else 0)

/-- The specification's description of the Restriction Table entry for
vertex `i` (spec §4.2), stated from its words: under no restriction every
index is legal; under the repeat-sensitive rules every index except `i`;
under the neighbor rules every index except the ring neighbors
`(i - 1 + ringSize) % ringSize` and `(i + 1) % ringSize`, with indices at
or beyond the ring (the centroid) unconstrained. -/
def specLegalNext (s : Settings K) (i j : ℕ) : Prop :=
  match s.restriction with
  | .none => True
  | .noRepeat | .noDoubleRepeat | .noReturn => j ≠ i
  | .noNeighbor | .noNeighborAfterRepeat =>
    ringSides s ≤ i ∨
      (j ≠ (i + ringSides s - 1) % ringSides s ∧ j ≠ (i + 1) % ringSides s)

end SpecSide

section Fixtures

/-- A small valid configuration used by concrete witnesses. -/
def sampleSettings : Settings ℚ :=
  { canvasSize := 4, sides := 3, jumpDistance := 1/2, padding := 0,
    midpointVertex := false, centerVertex := false, symmetrical := false,
    autoStop := false, liveRendering := false, solidBg := true,
    drawCircle := false, drawPolygon := false, restriction := .noReturn,
    gammaExponent := 1, stabilityNewPixelsThreshold := Option.none,
    fgColor := ['#', 'f', 'f', 'f'], bgColor := ['#', '0', '0', '0'] }

/-- A small engine state over `ℚ` consistent with `sampleSettings`, used by
concrete witnesses. -/
def sampleState : State ℚ :=
  { settings := sampleSettings,
    vertices := [(0, 0), (4, 0), (0, 4)],
    mainVertices := [(0, 0), (4, 0), (0, 4)],
    currentPoint := (1, 1), center := (2, 2), radius := 2,
    imageMatrix := List.replicate 16 0,
    allowedMoves := allowedTable sampleSettings 3,
    pixelData := List.replicate 16 0,
    maxValue := 1, prevIndex := [],
    bgColor := ⟨0, 0, 0⟩, fgColor := ⟨255, 255, 255⟩,
    cosAngles := [1, 0, 0], sinAngles := [0, 1, 1],
    iterations := 0, stabilityCounter := 0, newPixelsSinceLastCheck := 0,
    newPixelsEma := 0, filledPixels := 0, isRunning := false, hasCtx := true }

end Fixtures

/-- C7, amended: the guard of `normalizeValue` yields `0` exactly when the
precomputed `logMax = log(1 + maxValue)` is not positive, which requires
`maxValue ≤ 0` — not `maxValue ≤ 1` as claimed; for any such `logMax` the
normalizer returns `0` for every raw hit count rather than failing. -/
theorem normalizeValue_guard_zero (gamma raw logMax : ℝ) (h : logMax ≤ 0) :
    normalizeValue Real.log (fun a b => a ^ b) gamma raw logMax = 0 := by
  simp [normalizeValue, h]

/-- Witness for `normalizeValue_guard_zero` at `logMax = 0`. -/
theorem normalizeValue_guard_zero_w :
    normalizeValue Real.log (fun a b => a ^ b) 1 0 0 = 0 :=
  normalizeValue_guard_zero 1 0 0 (le_refl 0)

/-- Counterexample to C7 as stated: with `maxValue = 1` — the "nothing
plotted yet" value — and raw hit count `1`, `normalizeValue` returns `1`,
not `0`: the guard compares `log(1 + maxValue) = log 2 > 0`, so a
`maxValue` of `1` does not trigger the degenerate case. -/
theorem normalizeValue_at_maxValue_one_cex :
    normalizeValue Real.log (fun a b => a ^ b) 1 1 (Real.log (1 + (1 : ℝ))) = 1 ∧
    (1 : ℝ) ≠ 0 := by
  have h2 : (1 : ℝ) + 1 = 2 := by norm_num
  have hlog : (0 : ℝ) < Real.log 2 := Real.log_pos (by norm_num)
  refine ⟨?_, one_ne_zero⟩
  rw [normalizeValue, h2, if_neg (not_le.mpr hlog), div_self hlog.ne']
  exact Real.rpow_one 1

/-- C10, confirmed: when `stabilityNewPixelsThreshold` is absent or zero,
the `||`-defaulting makes the effective threshold `1.0`; the quiet-interval
counter is then governed by `ema < 1`, and no configuration can ever put a
zero threshold into effect. -/
theorem checkStability_default_threshold {K : Type} [LinearOrderedField K]
    (st : State K)
    (h : st.settings.stabilityNewPixelsThreshold = Option.none ∨
         st.settings.stabilityNewPixelsThreshold = some 0) :
    jsOr st.settings.stabilityNewPixelsThreshold 1 = 1 ∧
    (∀ t : Option K, jsOr t 1 ≠ 0) ∧
    (checkStability st).2.stabilityCounter =
      (if EMA_ALPHA K * (st.newPixelsSinceLastCheck : K) +
          (1 - EMA_ALPHA K) * st.newPixelsEma < 1 then st.stabilityCounter + 1
       else 0) ∧
    (checkStability st).1 =
      decide (EMA_ALPHA K * (st.newPixelsSinceLastCheck : K) +
          (1 - EMA_ALPHA K) * st.newPixelsEma < 1 ∧
        STABILITY_WINDOW ≤ st.stabilityCounter + 1) := by
  have hj : jsOr st.settings.stabilityNewPixelsThreshold 1 = 1 := by
    rcases h with h | h <;> simp [jsOr, h]
  have hne : ∀ t : Option K, jsOr t 1 ≠ 0 := by
    intro t
    match t with
    | Option.none => exact one_ne_zero
    | some v =>
      by_cases hv : v = 0
      · simp [jsOr, hv]
      · simp [jsOr, hv]
  refine ⟨hj, hne, ?_⟩
  by_cases hc : EMA_ALPHA K * (st.newPixelsSinceLastCheck : K) +
      (1 - EMA_ALPHA K) * st.newPixelsEma < 1
  · simp [checkStability, hj, hc]
  · simp [checkStability, hj, hc]

/-- Witness for `checkStability_default_threshold`: the sample state has no
configured threshold and the effective threshold is `1`. -/
theorem checkStability_default_threshold_w :
    jsOr sampleState.settings.stabilityNewPixelsThreshold 1 = 1 :=
  (checkStability_default_threshold sampleState (Or.inl rfl)).1

/-- C1, amended: a point that rounds off the canvas never makes the
accumulator write outside the Density Matrix — `plotPoint` either leaves
the state's matrix untouched (the `Float32Array` drops a write through an
index outside `[0, length)`) or increments exactly one cell at an in-range
index — but the handling is not one consistent clamp/discard/wrap policy
(see `oob_policy_not_consistent`). -/
theorem plotPoint_writes_inside_matrix {K : Type} [LinearOrderedField K]
    (st : State K) (x y : ℤ) :
    (plotPoint st x y).imageMatrix.length = st.imageMatrix.length ∧
    ((writeIndex st.settings.canvasSize st.imageMatrix.length x y = Option.none ∧
        plotPoint st x y = st) ∨
      ∃ i, writeIndex st.settings.canvasSize st.imageMatrix.length x y = some i ∧
        i < st.imageMatrix.length ∧
        (plotPoint st x y).imageMatrix =
          st.imageMatrix.set i (st.imageMatrix.getD i 0 + 1)) := by
  by_cases h : 0 ≤ y * (st.settings.canvasSize : ℤ) + x ∧
      y * (st.settings.canvasSize : ℤ) + x < (st.imageMatrix.length : ℤ)
  · have hi : (y * (st.settings.canvasSize : ℤ) + x).toNat < st.imageMatrix.length := by
      omega
    constructor
    · simp only [plotPoint]
      rw [if_pos h]
      split_ifs <;> simp
    · right
      refine ⟨(y * (st.settings.canvasSize : ℤ) + x).toNat, ?_, hi, ?_⟩
      · simp [writeIndex, h]
      · simp only [plotPoint]
        rw [if_pos h]
        split_ifs <;> rfl
  · constructor
    · simp [plotPoint, h]
    · left
      exact ⟨by simp [writeIndex, h], by simp [plotPoint, h]⟩

/-- Counterexample to C1 as stated: on a 4-pixel canvas the rounded point
`(-1, 1)` is off-canvas yet its flattened index `3` falls inside the
matrix, so the accumulator writes row 0 (neither clamping, discarding nor
coordinate-wrapping produces cell 3), while the off-canvas point `(1, -1)`
is silently dropped — no single one of the three policies accounts for the
behavior. -/
theorem oob_policy_not_consistent :
    writeIndex 4 16 (-1) 1 = some 3 ∧
    writeIndex 4 16 1 (-1) = Option.none ∧
    ¬ consistentOOBPolicy 4 16 := by
  refine ⟨by decide, by decide, ?_⟩
  rintro ⟨p, hp, hall⟩
  simp only [List.mem_cons, List.not_mem_nil, or_false] at hp
  rcases hp with rfl | rfl | rfl
  · exact absurd (hall (-1) 1 (by decide)) (by decide)
  · exact absurd (hall (-1) 1 (by decide)) (by decide)
  · exact absurd (hall (-1) 1 (by decide)) (by decide)

section Support

variable {K : Type} [LinearOrderedField K]

/-- A walk step only rewrites `prevIndex` and `currentPoint`; any other
projection passes through a fold of walk steps unchanged. -/
theorem foldl_walk_proj {α : Type} (f : State K → α)
    (hf : ∀ (c : ℕ → ℕ) (s : State K), f (updateCurrentPoint c s) = f s)
    (ch : ℕ → ℕ → ℕ) :
    ∀ (l : List ℕ) (st : State K),
      f (l.foldl (fun s i => updateCurrentPoint (ch i) s) st) = f st := by
  intro l
  induction l with
  | nil => intro st; rfl
  | cons a as ih => intro st; rw [List.foldl_cons, ih, hf]

theorem burnIn_proj {α : Type} (f : State K → α)
    (hf : ∀ (c : ℕ → ℕ) (s : State K), f (updateCurrentPoint c s) = f s)
    (ch : ℕ → ℕ → ℕ) (st : State K) : f (burnIn ch st) = f st :=
  foldl_walk_proj f hf ch _ st

theorem erase_settings (st : State K) : (erase st).settings = st.settings := by
  unfold erase; split_ifs <;> rfl

theorem erase_vertices (st : State K) : (erase st).vertices = st.vertices := by
  unfold erase; split_ifs <;> rfl

theorem erase_hasCtx (st : State K) : (erase st).hasCtx = st.hasCtx := by
  unfold erase; split_ifs <;> rfl

theorem preDraw_settings (cosK sinK sqrtK : K → K) (piK : K)
    (choices : ℕ → ℕ → ℕ) (triPick : ℕ → ℕ) (r1 r2 : K) (st : State K) :
    (preDraw cosK sinK sqrtK piK choices triPick r1 r2 st).settings = st.settings := by
  unfold preDraw
  rw [burnIn_proj State.settings (fun _ _ => rfl)]
  simp only [buildRestrictions]
  split_ifs <;> rfl

theorem preDraw_hasCtx (cosK sinK sqrtK : K → K) (piK : K)
    (choices : ℕ → ℕ → ℕ) (triPick : ℕ → ℕ) (r1 r2 : K) (st : State K) :
    (preDraw cosK sinK sqrtK piK choices triPick r1 r2 st).hasCtx = st.hasCtx := by
  unfold preDraw
  rw [burnIn_proj State.hasCtx (fun _ _ => rfl)]
  simp only [buildRestrictions]
  split_ifs <;> rfl

theorem setup_settings (cosK sinK sqrtK : K → K) (piK : K)
    (choices : ℕ → ℕ → ℕ) (triPick : ℕ → ℕ) (r1 r2 : K)
    (ns : Settings K) (st : State K) :
    (setup cosK sinK sqrtK piK choices triPick r1 r2 ns st).settings = ns := by
  unfold setup
  rw [erase_settings, preDraw_settings]
  rfl

theorem insertMidpoints_length (verts mids : List (K × K))
    (h : mids.length ≤ verts.length) :
    (insertMidpoints verts mids).length = verts.length + mids.length := by
  unfold insertMidpoints
  suffices H : ∀ n, n ≤ verts.length →
      ((List.range n).foldl
        (fun vs i => vs.insertIdx (2 * i + 1) (mids.getD i (0, 0))) verts).length =
      verts.length + n from H mids.length h
  intro n
  induction n with
  | zero => intro _; rfl
  | succ n ih =>
    intro hn
    rw [List.range_succ, List.foldl_append, List.foldl_cons, List.foldl_nil,
      List.length_insertIdx _ _ (by rw [ih (by omega)]; omega), ih (by omega)]
    omega

theorem preDraw_vertices_length (cosK sinK sqrtK : K → K) (piK : K)
    (choices : ℕ → ℕ → ℕ) (triPick : ℕ → ℕ) (r1 r2 : K) (st : State K) :
    (preDraw cosK sinK sqrtK piK choices triPick r1 r2 st).vertices.length =
      numVertices st.settings := by
  unfold preDraw
  rw [burnIn_proj State.vertices (fun _ _ => rfl)]
  simp only [buildRestrictions]
  have hmain : (mainVertexList cosK sinK piK st.settings st.radius st.center).length =
      st.settings.sides := by simp [mainVertexList]
  have hmid : (midpointList st.settings
      (mainVertexList cosK sinK piK st.settings st.radius st.center)).length =
      st.settings.sides := by simp [midpointList, hmain]
  have hins : (insertMidpoints
      (mainVertexList cosK sinK piK st.settings st.radius st.center)
      (midpointList st.settings
        (mainVertexList cosK sinK piK st.settings st.radius st.center))).length =
      st.settings.sides + st.settings.sides := by
    rw [insertMidpoints_length _ _ (le_of_eq (hmid.trans hmain.symm)), hmain, hmid]
  rcases hm : st.settings.midpointVertex <;> rcases hc : st.settings.centerVertex <;>
    simp [numVertices, hm, hc, hins, hmain] <;> omega

end Support

/-- Among any three candidates `0`, `1`, `2` at least one avoids both given
values; used to exhibit a legal move between the two excluded ring
neighbors. -/
theorem pick_avoid_two (a b : ℕ) : ∃ j, j ≤ 2 ∧ j ≠ a ∧ j ≠ b := by
  by_cases h0 : a = 0 ∨ b = 0
  · by_cases h1 : a = 1 ∨ b = 1
    · exact ⟨2, le_refl 2, by omega, by omega⟩
    · exact ⟨1, by omega, by omega, by omega⟩
  · exact ⟨0, by omega, by omega, by omega⟩

/-- Reading row `i` of the restriction table gives the loop body's list. -/
theorem allowedTable_getD {K : Type} [LinearOrderedField K] (s : Settings K)
    (len i : ℕ) (h : i < len) :
    (allowedTable s len).getD i [] = allowedFor s len i := by
  simp [allowedTable, List.getD_eq_getElem?_getD, List.getElem?_map,
    List.getElem?_range h]

/-- C4, confirmed: for every vertex index `i` the Restriction Table row
holds exactly the indices the specification describes — all indices under
no restriction; all but `i` under the repeat-sensitive rules; all but the
two ring neighbors of `i` under the neighbor rules when `i` is on the ring,
and all indices for the centroid — and with `sides ≥ 3` every row is
non-empty. -/
theorem restriction_table_correct {K : Type} [LinearOrderedField K]
    (s : Settings K) (h3 : 3 ≤ s.sides) :
    ∀ i, i < numVertices s → ∀ j : ℕ,
      (j ∈ (allowedTable s (numVertices s)).getD i [] ↔
        j < numVertices s ∧ specLegalNext s i j) ∧
      (allowedTable s (numVertices s)).getD i [] ≠ [] := by
  intro i hi j
  rw [allowedTable_getD s _ i hi]
  have hlen : 3 ≤ numVertices s := by
    unfold numVertices; split_ifs <;> omega
  have hring : 3 ≤ ringSides s := by
    unfold ringSides; split_ifs <;> omega
  have hmem : ∀ jj : ℕ, jj ∈ allowedFor s (numVertices s) i ↔
      jj < numVertices s ∧ specLegalNext s i jj := by
    intro jj
    cases hr : s.restriction <;>
      simp [allowedFor, specLegalNext, hr, List.mem_filter, List.mem_range,
        decide_eq_true_eq]
  refine ⟨hmem j, ?_⟩
  obtain ⟨jj, hjj⟩ : ∃ jj, jj ∈ allowedFor s (numVertices s) i := by
    cases hr : s.restriction
    case none =>
      exact ⟨0, (hmem 0).mpr ⟨by omega, by simp [specLegalNext, hr]⟩⟩
    case noRepeat =>
      refine ⟨if i = 0 then 1 else 0, (hmem _).mpr ⟨by split_ifs <;> omega, ?_⟩⟩
      simp only [specLegalNext, hr]
      split_ifs <;> omega
    case noDoubleRepeat =>
      refine ⟨if i = 0 then 1 else 0, (hmem _).mpr ⟨by split_ifs <;> omega, ?_⟩⟩
      simp only [specLegalNext, hr]
      split_ifs <;> omega
    case noReturn =>
      refine ⟨if i = 0 then 1 else 0, (hmem _).mpr ⟨by split_ifs <;> omega, ?_⟩⟩
      simp only [specLegalNext, hr]
      split_ifs <;> omega
    case noNeighbor =>
      by_cases hc : ringSides s ≤ i
      · exact ⟨0, (hmem 0).mpr ⟨by omega,
          by simp only [specLegalNext, hr]; exact Or.inl hc⟩⟩
      · obtain ⟨j0, hj2, hjl, hjr⟩ :=
          pick_avoid_two ((i + ringSides s - 1) % ringSides s) ((i + 1) % ringSides s)
        exact ⟨j0, (hmem j0).mpr ⟨by omega,
          by simp only [specLegalNext, hr]; exact Or.inr ⟨hjl, hjr⟩⟩⟩
    case noNeighborAfterRepeat =>
      by_cases hc : ringSides s ≤ i
      · exact ⟨0, (hmem 0).mpr ⟨by omega,
          by simp only [specLegalNext, hr]; exact Or.inl hc⟩⟩
      · obtain ⟨j0, hj2, hjl, hjr⟩ :=
          pick_avoid_two ((i + ringSides s - 1) % ringSides s) ((i + 1) % ringSides s)
        exact ⟨j0, (hmem j0).mpr ⟨by omega,
          by simp only [specLegalNext, hr]; exact Or.inr ⟨hjl, hjr⟩⟩⟩
  exact List.ne_nil_of_mem hjj

/-- Witness for `restriction_table_correct` at the sample configuration,
vertex 0 and candidate 2. -/
theorem restriction_table_correct_w :
    (2 ∈ (allowedTable sampleSettings (numVertices sampleSettings)).getD 0 [] ↔
      2 < numVertices sampleSettings ∧ specLegalNext sampleSettings 0 2) ∧
    (allowedTable sampleSettings (numVertices sampleSettings)).getD 0 [] ≠ [] :=
  restriction_table_correct sampleSettings (by decide) 0 (by decide) 2

section AccumulatorSupport

variable {K : Type} [LinearOrderedField K]

/-- Characterization of one plotting iteration: either the flattened index
is outside the matrix and nothing at all happens, or exactly the cell at
the in-range flattened index is incremented, the new-pixel counter bumps
when the cell was zero, and the maximum is raised to the post-increment
value when that exceeds it. -/
theorem plotPoint_cases (st : State K) (x y : ℤ) :
    (plotPoint st x y = st ∧
      writeIndex st.settings.canvasSize st.imageMatrix.length x y = Option.none) ∨
    (∃ i, writeIndex st.settings.canvasSize st.imageMatrix.length x y = some i ∧
      i < st.imageMatrix.length ∧
      plotPoint st x y =
        { (if st.imageMatrix.getD i 0 = 0 then
            { st with newPixelsSinceLastCheck := st.newPixelsSinceLastCheck + 1 }
          else st) with
          imageMatrix := st.imageMatrix.set i (st.imageMatrix.getD i 0 + 1),
          maxValue :=
            if st.maxValue < st.imageMatrix.getD i 0 + 1 then
              st.imageMatrix.getD i 0 + 1
            else st.maxValue }) := by
  by_cases h : 0 ≤ y * (st.settings.canvasSize : ℤ) + x ∧
      y * (st.settings.canvasSize : ℤ) + x < (st.imageMatrix.length : ℤ)
  · right
    refine ⟨(y * (st.settings.canvasSize : ℤ) + x).toNat, by simp [writeIndex, h],
      by omega, ?_⟩
    simp only [plotPoint]
    rw [if_pos h]
    split_ifs <;> rfl
  · exact Or.inl ⟨by simp [plotPoint, h], by simp [writeIndex, h]⟩

/-- One plot never decreases any cell. -/
theorem plotPoint_getD_le (st : State K) (x y : ℤ) (i : ℕ) :
    st.imageMatrix.getD i 0 ≤ (plotPoint st x y).imageMatrix.getD i 0 := by
  rcases plotPoint_cases st x y with ⟨heq, _⟩ | ⟨j, _, hj, heq⟩
  · rw [heq]
  · rw [heq]
    rcases eq_or_ne i j with rfl | hne
    · simp only [List.getD_eq_getElem?_getD, List.getElem?_set_self hj,
        Option.getD_some]
      exact Nat.le_succ _
    · simp [List.getD_eq_getElem?_getD, List.getElem?_set_ne hne.symm]

/-- One plot never decreases the running maximum. -/
theorem plotPoint_maxValue_le (st : State K) (x y : ℤ) :
    st.maxValue ≤ (plotPoint st x y).maxValue := by
  rcases plotPoint_cases st x y with ⟨heq, _⟩ | ⟨j, _, hj, heq⟩
  · rw [heq]
  · rw [heq]
    show st.maxValue ≤ if st.maxValue < st.imageMatrix.getD j 0 + 1 then
      st.imageMatrix.getD j 0 + 1 else st.maxValue
    split_ifs with hlt
    · exact le_of_lt hlt
    · exact le_refl _

/-- The running maximum moves only by being overtaken: when a plot changes
it, the old maximum was strictly below the written cell's post-increment
value, and the new maximum is that cell's new content. -/
theorem plotPoint_maxValue_change (st : State K) (x y : ℤ)
    (h : (plotPoint st x y).maxValue ≠ st.maxValue) :
    st.maxValue < (plotPoint st x y).maxValue ∧
    ∃ j, (plotPoint st x y).imageMatrix.getD j 0 = (plotPoint st x y).maxValue := by
  rcases plotPoint_cases st x y with ⟨heq, _⟩ | ⟨j, _, hj, heq⟩
  · exact absurd (by rw [heq]) h
  · rw [heq] at h ⊢
    by_cases hlt : st.maxValue < st.imageMatrix.getD j 0 + 1
    · refine ⟨?_, j, ?_⟩
      · show st.maxValue < if st.maxValue < st.imageMatrix.getD j 0 + 1 then
            st.imageMatrix.getD j 0 + 1 else st.maxValue
        rw [if_pos hlt]
        exact hlt
      · show (st.imageMatrix.set j (st.imageMatrix.getD j 0 + 1)).getD j 0 =
          if st.maxValue < st.imageMatrix.getD j 0 + 1 then
            st.imageMatrix.getD j 0 + 1 else st.maxValue
        rw [if_pos hlt]
        simp [List.getD_eq_getElem?_getD, List.getElem?_set_self hj]
    · refine absurd ?_ h
      show (if st.maxValue < st.imageMatrix.getD j 0 + 1 then
          st.imageMatrix.getD j 0 + 1 else st.maxValue) = st.maxValue
      rw [if_neg hlt]

/-- Cell monotonicity through the plotting fold of `updateMatrix`. -/
theorem plots_foldl_getD_le [FloorRing K] (pts : List (K × K)) (st : State K) (i : ℕ) :
    st.imageMatrix.getD i 0 ≤
      ((pts.foldl (fun s p => plotPoint s (round p.1) (round p.2)) st)).imageMatrix.getD i 0 := by
  induction pts generalizing st with
  | nil => exact le_refl _
  | cons p ps ih =>
    exact le_trans (plotPoint_getD_le st (round p.1) (round p.2) i) (ih _)

/-- Maximum monotonicity through the plotting fold of `updateMatrix`. -/
theorem plots_foldl_maxValue_le [FloorRing K] (pts : List (K × K)) (st : State K) :
    st.maxValue ≤
      ((pts.foldl (fun s p => plotPoint s (round p.1) (round p.2)) st)).maxValue := by
  induction pts generalizing st with
  | nil => exact le_refl _
  | cons p ps ih =>
    exact le_trans (plotPoint_maxValue_le st (round p.1) (round p.2)) (ih _)

/-- Cell monotonicity across one full `updateMatrix` step. -/
theorem updateMatrix_getD_le [FloorRing K] (choice : ℕ → ℕ) (st : State K) (i : ℕ) :
    st.imageMatrix.getD i 0 ≤ (updateMatrix choice st).imageMatrix.getD i 0 := by
  unfold updateMatrix
  exact plots_foldl_getD_le _ (updateCurrentPoint choice st) i

/-- Maximum monotonicity across one full `updateMatrix` step. -/
theorem updateMatrix_maxValue_le [FloorRing K] (choice : ℕ → ℕ) (st : State K) :
    st.maxValue ≤ (updateMatrix choice st).maxValue := by
  unfold updateMatrix
  exact plots_foldl_maxValue_le _ (updateCurrentPoint choice st)

/-- Cell monotonicity across any batch of `updateMatrix` steps. -/
theorem runSteps_getD_le [FloorRing K] (choices : List (ℕ → ℕ)) (st : State K) (i : ℕ) :
    st.imageMatrix.getD i 0 ≤ (runSteps choices st).imageMatrix.getD i 0 := by
  unfold runSteps
  induction choices generalizing st with
  | nil => exact le_refl _
  | cons c cs ih =>
    exact le_trans (updateMatrix_getD_le c st i) (ih _)

/-- Maximum monotonicity across any batch of `updateMatrix` steps. -/
theorem runSteps_maxValue_le [FloorRing K] (choices : List (ℕ → ℕ)) (st : State K) :
    st.maxValue ≤ (runSteps choices st).maxValue := by
  unfold runSteps
  induction choices generalizing st with
  | nil => exact le_refl _
  | cons c cs ih =>
    exact le_trans (updateMatrix_maxValue_le c st) (ih _)

end AccumulatorSupport

/-- C6, confirmed: along any batch of `updateMatrix` steps every Density
Matrix cell is non-decreasing and so is Max Value; a single plot changes
Max Value only by being strictly exceeded by a cell's post-increment value
(which becomes the new maximum); and immediately after `erase` (with a
canvas attached) Max Value is `1`. -/
theorem density_monotone_and_max {K : Type} [LinearOrderedField K] [FloorRing K]
    (choices : List (ℕ → ℕ)) (st : State K) (i : ℕ) (x y : ℤ)
    (hctx : st.hasCtx = true) :
    st.imageMatrix.getD i 0 ≤ (runSteps choices st).imageMatrix.getD i 0 ∧
    st.maxValue ≤ (runSteps choices st).maxValue ∧
    ((plotPoint st x y).maxValue ≠ st.maxValue →
      st.maxValue < (plotPoint st x y).maxValue ∧
      ∃ j, (plotPoint st x y).imageMatrix.getD j 0 = (plotPoint st x y).maxValue) ∧
    (erase st).maxValue = 1 := by
  refine ⟨runSteps_getD_le choices st i, runSteps_maxValue_le choices st,
    plotPoint_maxValue_change st x y, ?_⟩
  unfold erase
  rw [if_neg (by simp [hctx])]

/-- Witness for `density_monotone_and_max`: after erasing the sample state
the maximum is `1`. -/
theorem density_monotone_and_max_w : (erase sampleState).maxValue = 1 :=
  (density_monotone_and_max [] sampleState 0 0 0 rfl).2.2.2

section RenderSupport

variable {K : Type} [LinearOrderedField K]

/-- A fold whose step fixes every state it can see is the identity. -/
theorem foldl_fixed {α β : Type} (g : α → β → α) (l : List β) (a : α)
    (h : ∀ i ∈ l, ∀ b, g b i = b) : l.foldl g a = a := by
  induction l generalizing a with
  | nil => rfl
  | cons x xs ih =>
    rw [List.foldl_cons, h x (List.mem_cons_self x xs)]
    exact ih a (fun i hi b => h i (List.mem_cons_of_mem x hi) b)

/-- Normalization skips every cell of an all-zero density matrix, leaving
the pixel buffer untouched. -/
theorem updatePixelData_zero_matrix [FloorRing K] (logK : K → K)
    (powK : K → K → K) (s : State K)
    (hz : ∀ i, s.imageMatrix.getD i 0 = 0) :
    (updatePixelDataFromMatrix logK powK s).pixelData = s.pixelData := by
  unfold updatePixelDataFromMatrix
  exact foldl_fixed _ _ _ (fun i hi pd => by rw [hz i]; simp)

end RenderSupport

/-- C8, confirmed: `erase` followed immediately by the render path
(`prepareCanvasForOutput`, whose state effect is
`updatePixelDataFromMatrix`) leaves the Pixel Buffer as the flat background
fill — every cell the opaque background color when `solidBg` is set, the
fully transparent value `0` otherwise — because `erase` zeroes every hit
count and normalization never touches a zero-hit cell.  This holds for any
logarithm and power function. -/
theorem erase_render_flat_background {K : Type} [LinearOrderedField K]
    [FloorRing K] (logK : K → K) (powK : K → K → K) (st : State K)
    (hctx : st.hasCtx = true) :
    (updatePixelDataFromMatrix logK powK (erase st)).pixelData =
      List.replicate st.pixelData.length
        (if st.settings.solidBg then bg32 st.bgColor else 0) := by
  have herase : erase st = { st with
      imageMatrix := List.replicate st.imageMatrix.length 0,
      maxValue := 1, prevIndex := [], iterations := 0, stabilityCounter := 0,
      newPixelsSinceLastCheck := 0, newPixelsEma := 0, filledPixels := 0,
      pixelData :=
        if st.settings.solidBg = false then List.replicate st.pixelData.length 0
        else List.replicate st.pixelData.length (bg32 st.bgColor) } := by
    unfold erase
    rw [if_neg (by simp [hctx])]
  have hz : ∀ i, (erase st).imageMatrix.getD i 0 = 0 := by
    intro i
    rw [herase]
    show (List.replicate st.imageMatrix.length 0).getD i 0 = 0
    simp [List.getD_eq_getElem?_getD, List.getElem?_replicate]
    split_ifs <;> rfl
  rw [updatePixelData_zero_matrix logK powK _ hz, herase]
  show (if st.settings.solidBg = false then List.replicate st.pixelData.length 0
    else List.replicate st.pixelData.length (bg32 st.bgColor)) = _
  by_cases hbg : st.settings.solidBg <;> simp [hbg]

/-- Witness for `erase_render_flat_background` on the sample state (solid
background, black). -/
theorem erase_render_flat_background_w :
    (updatePixelDataFromMatrix (fun x => x) (fun a b => a * b)
        (erase sampleState)).pixelData =
      List.replicate sampleState.pixelData.length
        (if sampleState.settings.solidBg then bg32 sampleState.bgColor else 0) :=
  erase_render_flat_background (fun x => x) (fun a b => a * b) sampleState rfl

/-- A string with no digit characters has no digit runs. -/
theorem digitRunsAux_no_digit (l : List Char) (h : ∀ c ∈ l, c.isDigit = false) :
    digitRunsAux l [] = [] := by
  induction l with
  | nil => rfl
  | cons c cs ih =>
    have hc := h c (List.mem_cons_self c cs)
    simp [digitRunsAux, hc, ih (fun d hd => h d (List.mem_cons_of_mem c hd))]

/-- A malformed color string — no leading `#` and no digits anywhere — is
silently mapped to black, the source's final fallback, not rejected. -/
theorem colorToRGB_malformed (cstr : List Char)
    (h1 : cstr.head? ≠ some '#') (h2 : ∀ c ∈ cstr, c.isDigit = false) :
    colorToRGB cstr = ⟨0, 0, 0⟩ := by
  cases cstr with
  | nil => rfl
  | cons a as =>
    have ha : a ≠ '#' := fun hEq => h1 (by rw [hEq]; rfl)
    have hruns : digitRuns (a :: as) = [] := digitRunsAux_no_digit _ h2
    simp only [colorToRGB]
    split
    · next rest heq =>
      injection heq with hh hh2
      exact absurd hh ha
    · simp [hruns]

/-- A configuration that violates every constraint the claim lists: two
sides, a padding larger than half the canvas (negative radius), a zero
gamma exponent and a color string that parses to nothing. -/
def badSettings : Settings ℚ :=
  { sampleSettings with
    canvasSize := 1000, sides := 2, padding := 600,
    gammaExponent := 0, fgColor := ['b', 'l', 'u', 'e'] }

/-- C2, amended: neither `setup` nor the `updateSetting` handler validates
anything — `setup` installs whatever settings record it is handed,
discarding the previous state rather than retaining it, and a malformed
color string falls back to black instead of raising a configuration
error. -/
theorem setup_accepts_any_settings {K : Type} [LinearOrderedField K]
    (cosK sinK sqrtK : K → K) (piK : K) (choices : ℕ → ℕ → ℕ)
    (triPick : ℕ → ℕ) (r1 r2 : K) (ns : Settings K) (st : State K) :
    (setup cosK sinK sqrtK piK choices triPick r1 r2 ns st).settings = ns ∧
    (∀ cstr : List Char, cstr.head? ≠ some '#' →
      (∀ c ∈ cstr, c.isDigit = false) → colorToRGB cstr = ⟨0, 0, 0⟩) :=
  ⟨setup_settings cosK sinK sqrtK piK choices triPick r1 r2 ns st,
   fun cstr hh hd => colorToRGB_malformed cstr hh hd⟩

/-- Counterexample to C2 as stated: `setup` accepts `badSettings` — sides
= 2 < 3, radius `1000/2 − 600 < 0`, gamma exponent 0, unparseable color —
reporting no error and replacing, not retaining, the previous valid
settings. -/
theorem setup_no_validation_cex :
    (setup (fun _ => (0 : ℚ)) (fun _ => 0) (fun _ => 0) 0 (fun _ _ => 0)
        (fun _ => 0) 0 0 badSettings sampleState).settings = badSettings ∧
    badSettings.sides = 2 ∧
    ((badSettings.canvasSize : ℚ) / 2 - badSettings.padding < 0) ∧
    badSettings.gammaExponent = 0 ∧
    colorToRGB badSettings.fgColor = ⟨0, 0, 0⟩ ∧
    badSettings ≠ sampleState.settings := by
  refine ⟨setup_settings _ _ _ _ _ _ _ _ _ _, rfl, ?_, rfl, by decide, ?_⟩
  · show ((1000 : ℕ) : ℚ) / 2 - 600 < 0
    norm_num
  · exact fun h => absurd (congrArg Settings.sides h) (by decide)

/-- C3, amended: the `updateSetting` handler never rebuilds geometry —
vertices, rotation and restriction tables, the walk history and the
density matrix are untouched for every key — and for the keys the claim
says force a rebuild (`sides`, `padding`, `midpointVertex`,
`centerVertex`, `restriction`) its entire effect is storing the value into
`settings`; a full rebuild happens only through the separate `init` /
`reset` messages, which call `setup`.  The color keys refill the pixel
buffer and re-render (re-normalizing existing density), and
`gammaExponent` and the outline toggles only re-render. -/
theorem updateSetting_no_geometry_rebuild {K : Type} [LinearOrderedField K]
    [FloorRing K] (logK : K → K) (powK : K → K → K) (k : SettingKey)
    (v : SettingValue K) (st : State K) :
    ((handleUpdateSetting logK powK k v st).vertices = st.vertices ∧
     (handleUpdateSetting logK powK k v st).mainVertices = st.mainVertices ∧
     (handleUpdateSetting logK powK k v st).allowedMoves = st.allowedMoves ∧
     (handleUpdateSetting logK powK k v st).prevIndex = st.prevIndex ∧
     (handleUpdateSetting logK powK k v st).imageMatrix = st.imageMatrix) ∧
    ((k = .sides ∨ k = .padding ∨ k = .midpointVertex ∨ k = .centerVertex ∨
        k = .restriction) →
      handleUpdateSetting logK powK k v st =
        { st with settings := setKey st.settings k v }) := by
  constructor
  · refine ⟨?_, ?_, ?_, ?_, ?_⟩ <;>
    · simp only [handleUpdateSetting]
      split_ifs <;> rfl
  · intro hk
    rcases hk with rfl | rfl | rfl | rfl | rfl <;> rfl

/-- Counterexample to C3 as stated: after `updateSetting` changes `sides`
from 3 to 4 on a live state, the stored setting is 4 but the geometry is
not rebuilt — the vertex list still has its previous 3 entries and the
restriction table is unchanged, so any subsequent step would walk the old
geometry under the new value. -/
theorem updateSetting_sides_no_rebuild_cex :
    (handleUpdateSetting (fun x : ℚ => x) (fun a b => a * b) .sides (.nat 4)
        sampleState).settings.sides = 4 ∧
    (handleUpdateSetting (fun x : ℚ => x) (fun a b => a * b) .sides (.nat 4)
        sampleState).vertices = sampleState.vertices ∧
    (handleUpdateSetting (fun x : ℚ => x) (fun a b => a * b) .sides (.nat 4)
        sampleState).allowedMoves = sampleState.allowedMoves ∧
    sampleState.vertices.length = 3 :=
  ⟨rfl, rfl, rfl, rfl⟩

section WalkSupport

variable {K : Type} [LinearOrderedField K]

/-- Appending to the history makes the new element the `at(-1)` entry. -/
theorem atNeg1_concat (l : List ℕ) (a : ℕ) : atNeg1 (l ++ [a]) = a := by
  unfold atNeg1
  rw [List.length_append]
  simp [List.getD_eq_getElem?_getD, List.getElem?_concat_length]

/-- Appending to a non-empty history shifts the old `at(-1)` entry to
`at(-2)`. -/
theorem atNeg2_concat (l : List ℕ) (a : ℕ) (h : l ≠ []) :
    atNeg2 (l ++ [a]) = atNeg1 l := by
  unfold atNeg2 atNeg1
  have hl : 1 ≤ l.length := List.length_pos.mpr h
  rw [List.length_append]
  have hidx : l.length + [a].length - 2 = l.length - 1 := by
    simp only [List.length_singleton]
    omega
  rw [hidx, List.getD_eq_getElem?_getD, List.getD_eq_getElem?_getD,
    List.getElem?_append_left (by omega)]

/-- Evicting the oldest entry does not change `at(-1)`. -/
theorem atNeg1_drop_one (m : List ℕ) (h : 2 ≤ m.length) :
    atNeg1 (m.drop 1) = atNeg1 m := by
  unfold atNeg1
  rw [List.length_drop, List.getD_eq_getElem?_getD, List.getD_eq_getElem?_getD,
    List.getElem?_drop]
  congr 2
  omega

/-- Evicting the oldest entry does not change `at(-2)`. -/
theorem atNeg2_drop_one (m : List ℕ) (h : 3 ≤ m.length) :
    atNeg2 (m.drop 1) = atNeg2 m := by
  unfold atNeg2
  rw [List.length_drop, List.getD_eq_getElem?_getD, List.getD_eq_getElem?_getD,
    List.getElem?_drop]
  congr 2
  omega

/-- The walk state reached after `k` steps from `st0`, step `j` consuming
the abstracted random draw `cs j`: a run of the Walk Engine. -/
def walkStates (cs : ℕ → ℕ → ℕ) (st0 : State K) : ℕ → State K
  | 0 => st0
  | k + 1 => updateCurrentPoint (cs k) (walkStates cs st0 k)

/-- The vertex index the engine chooses at step `k` of the run. -/
def chosenAt (cs : ℕ → ℕ → ℕ) (st0 : State K) (k : ℕ) : ℕ :=
  chooseIndex (cs k) (walkStates cs st0 k)

/-- Projections a walk step fixes are constant along the whole run. -/
theorem walkStates_proj {α : Type} (f : State K → α)
    (hf : ∀ (c : ℕ → ℕ) (s : State K), f (updateCurrentPoint c s) = f s)
    (cs : ℕ → ℕ → ℕ) (st0 : State K) : ∀ k, f (walkStates cs st0 k) = f st0 := by
  intro k
  induction k with
  | zero => rfl
  | succ k ih => rw [walkStates, hf, ih]

/-- In the `no-return` restricted branch — history at least two long — the
choice is drawn from the table row of the `at(-2)` entry, so it is a valid
vertex index different from that entry. -/
theorem chooseIndex_noReturn_restricted (s : State K)
    (hres : s.settings.restriction = .noReturn)
    (htab : s.allowedMoves = allowedTable s.settings s.vertices.length)
    (hlen : 2 ≤ s.prevIndex.length)
    (hlb : atNeg2 s.prevIndex < s.vertices.length)
    (hn : 2 ≤ s.vertices.length)
    (c : ℕ → ℕ) (hc : ∀ n, 0 < n → c n < n) :
    chooseIndex c s < s.vertices.length ∧
    chooseIndex c s ≠ atNeg2 s.prevIndex := by
  have hcond : ¬(s.prevIndex = [] ∨
      (s.settings.restriction = .noReturn ∧ s.prevIndex.length < 2) ∨
      ((s.settings.restriction = .noNeighborAfterRepeat ∨
          s.settings.restriction = .noDoubleRepeat) ∧
        (s.prevIndex.length < 2 ∨ atNeg1 s.prevIndex ≠ atNeg2 s.prevIndex))) := by
    push_neg
    refine ⟨List.ne_nil_of_length_pos (by omega), fun _ => by omega, fun hmem => ?_⟩
    rw [hres] at hmem
    rcases hmem with h | h <;> exact absurd h (by decide)
  have hAF : allowedFor s.settings s.vertices.length (atNeg2 s.prevIndex) =
      (List.range s.vertices.length).filter (fun j => j ≠ atNeg2 s.prevIndex) := by
    simp [allowedFor, hres]
  have hallowed : s.allowedMoves.getD (atNeg2 s.prevIndex) [] =
      (List.range s.vertices.length).filter (fun j => j ≠ atNeg2 s.prevIndex) := by
    rw [htab, allowedTable_getD _ _ _ hlb, hAF]
  have hmemb : (if atNeg2 s.prevIndex = 0 then 1 else 0) ∈
      (List.range s.vertices.length).filter (fun j => j ≠ atNeg2 s.prevIndex) := by
    refine List.mem_filter.mpr ⟨List.mem_range.mpr (by split_ifs <;> omega), ?_⟩
    split_ifs with h0 <;> simp [h0]
    omega
  have hpos : 0 < ((List.range s.vertices.length).filter
      (fun j => j ≠ atNeg2 s.prevIndex)).length :=
    List.length_pos.mpr (List.ne_nil_of_mem hmemb)
  unfold chooseIndex
  rw [if_neg hcond, if_pos hres]
  have hidx := hc _ hpos
  have hget : ((List.range s.vertices.length).filter
        (fun j => j ≠ atNeg2 s.prevIndex)).getD
      (c ((List.range s.vertices.length).filter
        (fun j => j ≠ atNeg2 s.prevIndex)).length) 0 ∈
      (List.range s.vertices.length).filter (fun j => j ≠ atNeg2 s.prevIndex) := by
    rw [List.getD_eq_getElem?_getD, List.getElem?_eq_getElem hidx]
    exact List.getElem_mem hidx
  simp only [hallowed]
  have hmf := List.mem_filter.mp hget
  refine ⟨List.mem_range.mp hmf.1, ?_⟩
  have h2 := hmf.2
  simp only [decide_eq_true_eq] at h2
  exact h2

/-- With fewer than two history entries the `no-return` rule falls back to
the uniform branch over all vertices. -/
theorem chooseIndex_noReturn_uniform (s : State K)
    (hres : s.settings.restriction = .noReturn)
    (hlen : s.prevIndex.length < 2) (c : ℕ → ℕ) :
    chooseIndex c s = c s.vertices.length := by
  unfold chooseIndex
  by_cases hnil : s.prevIndex = []
  · rw [if_pos (Or.inl hnil)]
  · rw [if_pos (Or.inr (Or.inl ⟨hres, hlen⟩))]

end WalkSupport

/-- Run invariant for a `no-return` walk started on a clean history with
the restriction table as built: the history length follows `min k 10`,
every chosen index is a valid vertex, and the `at(-1)` / `at(-2)` entries
hold the choices of steps `k-1` and `k-2`. -/
theorem noReturn_invariant {K : Type} [LinearOrderedField K]
    (st0 : State K) (cs : ℕ → ℕ → ℕ)
    (hres : st0.settings.restriction = .noReturn)
    (hhist : st0.prevIndex = [])
    (htab : st0.allowedMoves = allowedTable st0.settings st0.vertices.length)
    (hn : 2 ≤ st0.vertices.length)
    (hcs : ∀ k n, 0 < n → cs k n < n) :
    ∀ k, (walkStates cs st0 k).prevIndex.length = min k 10 ∧
      (∀ j, j < k → chosenAt cs st0 j < st0.vertices.length) ∧
      (∀ j, j + 1 = k → atNeg1 (walkStates cs st0 k).prevIndex = chosenAt cs st0 j) ∧
      (∀ j, j + 2 = k → atNeg2 (walkStates cs st0 k).prevIndex = chosenAt cs st0 j) := by
  have hsett : ∀ k, (walkStates cs st0 k).settings = st0.settings :=
    walkStates_proj State.settings (fun _ _ => rfl) cs st0
  have hvert : ∀ k, (walkStates cs st0 k).vertices = st0.vertices :=
    walkStates_proj State.vertices (fun _ _ => rfl) cs st0
  have hmov : ∀ k, (walkStates cs st0 k).allowedMoves = st0.allowedMoves :=
    walkStates_proj State.allowedMoves (fun _ _ => rfl) cs st0
  have hstep : ∀ k, (walkStates cs st0 (k + 1)).prevIndex =
      if 10 < ((walkStates cs st0 k).prevIndex ++ [chosenAt cs st0 k]).length then
        ((walkStates cs st0 k).prevIndex ++ [chosenAt cs st0 k]).drop 1
      else (walkStates cs st0 k).prevIndex ++ [chosenAt cs st0 k] := fun k => rfl
  intro k
  induction k with
  | zero =>
    refine ⟨by rw [walkStates, hhist]; rfl, fun j hj => absurd hj (by omega),
      fun j hj => by omega, fun j hj => by omega⟩
  | succ k ih =>
    obtain ⟨hlen, hbound, h1, h2⟩ := ih
    have hchk : chosenAt cs st0 k < st0.vertices.length := by
      by_cases hsmall : (walkStates cs st0 k).prevIndex.length < 2
      · unfold chosenAt
        rw [chooseIndex_noReturn_uniform _ (by rw [hsett]; exact hres) hsmall, hvert]
        exact hcs k _ (by omega)
      · push_neg at hsmall
        have hk2 : 2 ≤ k := by rw [hlen] at hsmall; omega
        have hlb : atNeg2 (walkStates cs st0 k).prevIndex = chosenAt cs st0 (k - 2) :=
          h2 (k - 2) (by omega)
        have hr := chooseIndex_noReturn_restricted (walkStates cs st0 k)
          (by rw [hsett]; exact hres)
          (by rw [hmov, hsett, hvert]; exact htab)
          hsmall
          (by rw [hlb, hvert]; exact hbound (k - 2) (by omega))
          (by rw [hvert]; exact hn)
          (cs k) (hcs k)
        have hb := hr.1
        rw [hvert] at hb
        exact hb
    refine ⟨?_, ?_, ?_, ?_⟩
    · rw [hstep]
      split_ifs with hgt <;>
        simp only [List.length_drop, List.length_append, List.length_singleton,
          hlen] at hgt ⊢ <;> omega
    · intro j hj
      rcases (by omega : j < k ∨ j = k) with h | rfl
      · exact hbound j h
      · exact hchk
    · intro j hj
      have hjk : j = k := by omega
      subst hjk
      rw [hstep]
      split_ifs with hgt
      · rw [atNeg1_drop_one _ (by omega), atNeg1_concat]
      · rw [atNeg1_concat]
    · intro j hj
      have hk1 : 1 ≤ k := by omega
      have hjk : j = k - 1 := by omega
      subst hjk
      have hne : (walkStates cs st0 k).prevIndex ≠ [] := by
        apply List.ne_nil_of_length_pos
        rw [hlen]
        omega
      rw [hstep]
      split_ifs with hgt
      · rw [atNeg2_drop_one _ (by omega), atNeg2_concat _ _ hne]
        exact h1 (k - 1) (by omega)
      · rw [atNeg2_concat _ _ hne]
        exact h1 (k - 1) (by omega)

/-- C5, confirmed: in every `no-return` run — started on the empty history
a reset leaves, with the restriction table as built and any valid random
source — the vertex chosen at step `k` differs from the one chosen at step
`k−2`: whenever step `k−2` exists, the engine draws from the legal set of
the second-to-last history entry, which excludes exactly that entry. -/
theorem noReturn_never_returns {K : Type} [LinearOrderedField K]
    (st0 : State K) (cs : ℕ → ℕ → ℕ)
    (hres : st0.settings.restriction = .noReturn)
    (hhist : st0.prevIndex = [])
    (htab : st0.allowedMoves = allowedTable st0.settings st0.vertices.length)
    (hn : 2 ≤ st0.vertices.length)
    (hcs : ∀ k n, 0 < n → cs k n < n) :
    ∀ k, chosenAt cs st0 (k + 2) ≠ chosenAt cs st0 k := by
  intro k
  obtain ⟨hlen, hbound, h1, h2⟩ :=
    noReturn_invariant st0 cs hres hhist htab hn hcs (k + 2)
  have hsett : ∀ j, (walkStates cs st0 j).settings = st0.settings :=
    walkStates_proj State.settings (fun _ _ => rfl) cs st0
  have hvert : ∀ j, (walkStates cs st0 j).vertices = st0.vertices :=
    walkStates_proj State.vertices (fun _ _ => rfl) cs st0
  have hmov : ∀ j, (walkStates cs st0 j).allowedMoves = st0.allowedMoves :=
    walkStates_proj State.allowedMoves (fun _ _ => rfl) cs st0
  have hsmall : 2 ≤ (walkStates cs st0 (k + 2)).prevIndex.length := by
    rw [hlen]; omega
  have hlb : atNeg2 (walkStates cs st0 (k + 2)).prevIndex = chosenAt cs st0 k :=
    h2 k rfl
  have hr := chooseIndex_noReturn_restricted (walkStates cs st0 (k + 2))
    (by rw [hsett]; exact hres)
    (by rw [hmov, hsett, hvert]; exact htab)
    hsmall
    (by rw [hlb, hvert]; exact hbound k (by omega))
    (by rw [hvert]; exact hn)
    (cs (k + 2)) (hcs (k + 2))
  have hne := hr.2
  rw [hlb] at hne
  exact hne

/-- Witness for `noReturn_never_returns` on the sample no-return state:
step 2 differs from step 0. -/
theorem noReturn_never_returns_w :
    chosenAt (fun _ _ => 0) sampleState 2 ≠ chosenAt (fun _ _ => 0) sampleState 0 :=
  noReturn_never_returns sampleState (fun _ _ => 0) rfl rfl rfl (by decide)
    (fun _ _ h => h) 0

/-- After a geometry build followed by `erase` the history is empty, the
vertex count is the geometric one, and the next selection is the uniform
branch. -/
theorem erase_preDraw_facts {K : Type} [LinearOrderedField K]
    (cosK sinK sqrtK : K → K) (piK : K) (choices : ℕ → ℕ → ℕ)
    (triPick : ℕ → ℕ) (r1 r2 : K) (s : State K) (hs : s.hasCtx = true) :
    (erase (preDraw cosK sinK sqrtK piK choices triPick r1 r2 s)).prevIndex = [] ∧
    (erase (preDraw cosK sinK sqrtK piK choices triPick r1 r2 s)).vertices.length =
      numVertices s.settings ∧
    (∀ c : ℕ → ℕ,
      chooseIndex c (erase (preDraw cosK sinK sqrtK piK choices triPick r1 r2 s)) =
        c (erase (preDraw cosK sinK sqrtK piK choices triPick r1 r2 s)).vertices.length) := by
  have hc2 : (preDraw cosK sinK sqrtK piK choices triPick r1 r2 s).hasCtx = true := by
    rw [preDraw_hasCtx]; exact hs
  have hp : (erase (preDraw cosK sinK sqrtK piK choices triPick r1 r2 s)).prevIndex = [] := by
    unfold erase
    rw [if_neg (by simp [hc2])]
  refine ⟨hp, ?_, ?_⟩
  · rw [erase_vertices, preDraw_vertices_length]
  · intro c
    unfold chooseIndex
    rw [if_pos (Or.inl hp)]

/-- C9, confirmed: `setup` runs `preDraw` — whose burn-in fills the Move
History — and then `erase`, which clears it, so after every
initialize/reset the history is empty; consequently, whatever the
restriction rule, the first selection of the following run takes the
uniform branch over the full vertex list (any draw over the complete index
range is possible). -/
theorem setup_clears_history_uniform {K : Type} [LinearOrderedField K]
    (cosK sinK sqrtK : K → K) (piK : K) (choices : ℕ → ℕ → ℕ)
    (triPick : ℕ → ℕ) (r1 r2 : K) (ns : Settings K) (st : State K)
    (hctx : st.hasCtx = true) :
    (setup cosK sinK sqrtK piK choices triPick r1 r2 ns st).prevIndex = [] ∧
    (setup cosK sinK sqrtK piK choices triPick r1 r2 ns st).vertices.length =
      numVertices ns ∧
    (∀ c : ℕ → ℕ,
      chooseIndex c (setup cosK sinK sqrtK piK choices triPick r1 r2 ns st) =
        c (setup cosK sinK sqrtK piK choices triPick r1 r2 ns st).vertices.length) :=
  erase_preDraw_facts cosK sinK sqrtK piK choices triPick r1 r2 _ hctx

/-- Witness for `setup_clears_history_uniform`: the sample state, freshly
set up, has an empty history. -/
theorem setup_clears_history_uniform_w :
    (setup (fun _ => (0 : ℚ)) (fun _ => 0) (fun _ => 0) 0 (fun _ _ => 0)
        (fun _ => 0) 0 0 sampleSettings sampleState).prevIndex = [] :=
  (setup_clears_history_uniform (fun _ => (0 : ℚ)) (fun _ => 0) (fun _ => 0) 0
    (fun _ _ => 0) (fun _ => 0) 0 0 sampleSettings sampleState rfl).1
